import Mathlib

/-!
Shallow embedding of `src/api.py` (the `Bot` dispatch-and-aggregation core):
the `Question`/`Answer` data model, the worker streaming loop
(`Bot.start_answering`, lines 90-117), the per-question answer buffer
operations (`Bot.queue_answer`, lines 119-128, and `Bot.pop_answer`,
lines 131-164) and submission (`Bot.ask`, lines 166-169).

Modelling conventions:
- Python `str` is Lean `String`; Python slicing `s[pos:]` with a
  code-point index is `String.drop`, and `len(s)` is `String.length`.
- A value that the Python code may leave as `None` is an `Option`.
- The per-question entry of `Bot.answer_queues` is an
  `Option (List Answer)`: `none` means the registry has no entry for the
  question id, `some l` means the entry is a `queue.Queue` holding the
  fragments `l` in FIFO order.
- `threading.Lock.acquire(blocking=True, timeout=1)` returns a `Bool`
  (`False` on timeout).  The source discards that return value at
  lines 120 and 132 and proceeds unconditionally, so the embedded
  operations take the acquisition result as an argument that the body
  does not consult.
-/

/-- Embeds `Question.__init__` (lines 43-48): `question_id` is the
`str(uuid.uuid4())` freshly generated at construction; the model receives
it as an argument. -/
structure Question where
  text : String
  conversation_id : Option String
  parent_id : Option String
  question_id : String
deriving DecidableEq, Repr

/-- Embeds `Answer.__init__` (lines 51-56).  `text` is `Option String`
because the worker constructs terminal fragments with `text=None`
(lines 112 and 116), and `pop_answer` returns `Answer(None, None, None,
False)` when no buffer exists (line 139). -/
structure Answer where
  text : Option String
  conversation_id : Option String
  parent_id : Option String
  finished : Bool
deriving DecidableEq, Repr

/-- One step yielded by the engine adapter (`chatbot.ask`, line 104): a
dict with cumulative `message` text so far plus conversation and parent
ids. -/
structure Step where
  message : String
  conversation_id : Option String
  parent_id : Option String
deriving DecidableEq, Repr

/-- `Bot.answer_queue_max_size` (line 69): the `maxsize` every per-question
`queue.Queue` is created with (line 124). -/
def answer_queue_max_size : Nat := 64

/-- Embeds `Bot.queue_answer` (lines 119-128) acting on one question's
registry entry: get-or-create the buffer, then `aq.put(answer)` appends.
`lock_acquired` is the value returned by
`self.answer_queues_lock.acquire(blocking=True, timeout=1)` (line 120);
the source never inspects it, so neither does the body.  The blocking of
`put` on a full queue is modelled by the step relation `buffer_step`
below, not here. -/
def queue_answer (lock_acquired : Bool) (buf : Option (List Answer))
    (answer : Answer) : Option (List Answer) :=
  match buf with
  | none => some [answer]
  | some aq => some (aq ++ [answer])

/-- Embeds the drain loop of `Bot.pop_answer` (lines 141-158): pop
fragments non-blockingly until the queue is empty, re-assigning
`finished` to each popped fragment's flag and, for non-terminal
fragments, accumulating `text` and overwriting the ids.  The loop never
breaks early on a terminal fragment; it stops only on `Empty`.
(`text += answer.text` assumes a non-terminal fragment carries a string,
which holds for every fragment the worker publishes with
`finished=False`; `Option.getD ""` realizes that reading.) -/
def drain_fragments : List Answer → String → Option String → Option String →
    Bool → String × Option String × Option String × Bool
  | [], text, conversation_id, parent_id, finished =>
      (text, conversation_id, parent_id, finished)
  | answer :: rest, text, conversation_id, parent_id, _ =>
      if answer.finished then
        drain_fragments rest text conversation_id parent_id true
      else
        drain_fragments rest (text ++ answer.text.getD "")
          answer.conversation_id answer.parent_id false

/-- Embeds `Bot.pop_answer` (lines 131-164) acting on one question's
registry entry.  Returns the aggregated `Answer` handed to the caller
and the registry entry after the call: the missing-buffer branch
(lines 136-139) returns `Answer(None, None, None, False)` and leaves the
registry unchanged; otherwise the drain empties the queue and, when the
drain ended with `finished` true, `answer_queues.pop` (line 161) removes
the entry.  `lock_acquired` is the discarded result of the timed
`acquire` at line 132. -/
def pop_answer (lock_acquired : Bool) (buf : Option (List Answer)) :
    Answer × Option (List Answer) :=
  match buf with
  | none => (⟨none, none, none, false⟩, none)
  | some aq =>
      let r := drain_fragments aq "" none none false
      (⟨some r.1, r.2.1, r.2.2.1, r.2.2.2⟩,
        if r.2.2.2 then none else some [])

/-- Embeds the streaming loop of `Bot.start_answering` (lines 104-110):
for each adapter step, publish `data["message"][text_pos:]` as a
non-terminal fragment and advance the cursor to `len(data["message"])`. -/
def stream_deltas : List Step → Nat → List Answer
  | [], _ => []
  | step :: rest, text_pos =>
      ⟨some (step.message.drop text_pos), step.conversation_id,
        step.parent_id, false⟩ :: stream_deltas rest step.message.length

/-- Embeds the publication behaviour of `Bot.start_answering`
(lines 101-117) as the list of fragments published for one question, in
order.  `raises = true` models the adapter raising after yielding
`steps`: the handler (lines 114-117) publishes the single terminal
fragment `Answer(None, None, None, True)` (the `Answer(str(ex), None,
None, False)` built at line 115 is overwritten before it is ever
published).  On normal exhaustion with at least one step, line 112
publishes a terminal fragment carrying the last step's ids.  On normal
exhaustion with zero steps, lines 111-112 read the loop variable `data`
while it is unbound, raising an error that the surrounding `except`
catches, so the empty stream is routed through the same failure publish. -/
def start_answering (steps : List Step) (raises : Bool) : List Answer :=
  let fragments := stream_deltas steps 0
  if raises then
    fragments ++ [⟨none, none, none, true⟩]
  else
    match steps.getLast? with
    | some last =>
        fragments ++ [⟨none, last.conversation_id, last.parent_id, true⟩]
    | none => fragments ++ [⟨none, none, none, true⟩]

/-- Embeds `Bot.ask` (lines 166-169): build a `Question` (its
`question_id` the freshly generated uuid, received here as `fresh_id`),
put it on the shared question queue (unbounded `queue.Queue()`, line 61,
so `put` never blocks and is a total append), and return the question
object immediately. -/
def ask (fresh_id : String) (question_queue : List Question) (text : String)
    (conversation_id parent_id : Option String) : Question × List Question :=
  let question : Question := ⟨text, conversation_id, parent_id, fresh_id⟩
  (question, question_queue ++ [question])

/-- Publish a list of fragments in order via `queue_answer` (an
uncontended run: the lock acquisitions succeed). -/
def publish_all (buf : Option (List Answer)) : List Answer →
    Option (List Answer)
  | [] => buf
  | a :: rest => publish_all (queue_answer true buf a) rest

/-- One poll interleaving: each segment is the batch of fragments that
gets published before the next `pop_answer` call; the returned list
holds the aggregated answers of the successive polls. -/
def run_polls (buf : Option (List Answer)) : List (List Answer) →
    List Answer
  | [] => []
  | seg :: rest =>
      let s := pop_answer true (publish_all buf seg)
      s.1 :: run_polls s.2 rest

/-- Concatenation of the `text` fields of a list of answers, an absent
text contributing nothing. -/
def texts_concat (l : List Answer) : String :=
  (l.map (fun a => a.text.getD "")).foldr (· ++ ·) ""

/-- Number of fragments held by one question's registry entry. -/
def buf_len : Option (List Answer) → Nat
  | none => 0
  | some aq => aq.length

/-- The adapter steps of the spec's concrete scenario: cumulative
messages "H", "He", "Hello", completing with conversation id "c1" and
parent id "p1". -/
def scenario_steps : List Step :=
  [⟨"H", some "c1", some "p1"⟩, ⟨"He", some "c1", some "p1"⟩,
   ⟨"Hello", some "c1", some "p1"⟩]

/-- The events that touch one question's registry entry, with the
blocking of `aq.put` on a full queue (line 128; `queue.Queue` created
with `maxsize=answer_queue_max_size` at line 124) modelled as the
publish event being enabled only while the buffer holds fewer than
`answer_queue_max_size` fragments. -/
inductive buffer_step : Option (List Answer) → Option (List Answer) → Prop
  | publish (buf : Option (List Answer)) (a : Answer)
      (h : buf_len buf < answer_queue_max_size) :
      buffer_step buf (queue_answer true buf a)
  | poll (buf : Option (List Answer)) :
      buffer_step buf (pop_answer true buf).2

theorem texts_concat_nil : texts_concat [] = "" := rfl

theorem texts_concat_cons (a : Answer) (l : List Answer) :
    texts_concat (a :: l) = a.text.getD "" ++ texts_concat l := rfl

theorem texts_concat_append (l₁ l₂ : List Answer) :
    texts_concat (l₁ ++ l₂) = texts_concat l₁ ++ texts_concat l₂ := by
  induction l₁ with
  | nil => simp [texts_concat_nil, texts_concat]
  | cons a l ih =>
    simp only [List.cons_append, texts_concat_cons, ih, String.append_assoc]

theorem string_drop_append_length (p t : String) : (p ++ t).drop p.length = t := by
  apply String.ext
  rw [String.data_drop]
  show (p.data ++ t.data).drop p.data.length = t.data
  exact List.drop_left p.data t.data

theorem drain_fragments_eq (l : List Answer) (text : String)
    (cid pid : Option String) (fin : Bool) :
    drain_fragments l text cid pid fin =
      (text ++ texts_concat (l.filter (fun a => !a.finished)),
       ((l.filter (fun a => !a.finished)).getLast?.map Answer.conversation_id).getD cid,
       ((l.filter (fun a => !a.finished)).getLast?.map Answer.parent_id).getD pid,
       (l.getLast?.map Answer.finished).getD fin) := by
  induction l generalizing text cid pid fin with
  | nil => simp [drain_fragments, texts_concat_nil]
  | cons a rest ih =>
    by_cases h : a.finished
    · rw [show drain_fragments (a :: rest) text cid pid fin =
        drain_fragments rest text cid pid true by simp [drain_fragments, h]]
      rw [ih]
      simp only [List.filter_cons, h, Bool.not_true, List.getLast?_cons]
      cases hr : rest.getLast? with
      | none => simp [h]
      | some x => simp
    · rw [show drain_fragments (a :: rest) text cid pid fin =
        drain_fragments rest (text ++ a.text.getD "") a.conversation_id
          a.parent_id false by simp [drain_fragments, h]]
      rw [ih]
      rw [Bool.not_eq_true] at h
      simp only [List.filter_cons, h, Bool.not_false, if_pos, texts_concat_cons,
        List.getLast?_cons, Prod.mk.injEq]
      refine ⟨by rw [String.append_assoc], ?_, ?_, ?_⟩
      · cases hr : (rest.filter (fun a => !a.finished)).getLast? with
        | none => simp
        | some x => simp
      · cases hr : (rest.filter (fun a => !a.finished)).getLast? with
        | none => simp
        | some x => simp
      · cases hr : rest.getLast? with
        | none => simp [h]
        | some x => simp

theorem pop_answer_some_eq (aq : List Answer) :
    pop_answer true (some aq) =
      (⟨some (texts_concat (aq.filter (fun a => !a.finished))),
        ((aq.filter (fun a => !a.finished)).getLast?.map Answer.conversation_id).getD none,
        ((aq.filter (fun a => !a.finished)).getLast?.map Answer.parent_id).getD none,
        (aq.getLast?.map Answer.finished).getD false⟩,
       if (aq.getLast?.map Answer.finished).getD false then none
       else some []) := by
  simp [pop_answer, drain_fragments_eq]

theorem stream_deltas_all_nonterminal (steps : List Step) (pos : Nat) :
    ∀ a ∈ stream_deltas steps pos, a.finished = false := by
  induction steps generalizing pos with
  | nil => simp [stream_deltas]
  | cons s rest ih =>
    intro a ha
    rw [stream_deltas] at ha
    rcases List.mem_cons.mp ha with h | h
    · rw [h]
    · exact ih s.message.length a h

/-- Claim C3 as stated is false on the code: the drain loop of
`pop_answer` (lines 145-158) has no early exit, so a fragment that sits
behind a terminal fragment in the buffer is still consumed by the same
poll; here it overwrites `finished` back to `false` and contributes its
text, contradicting the claim that post-terminal fragments are not
consumed and do not affect the result. -/
theorem c3_counterexample :
    ((pop_answer true (some [⟨none, none, none, true⟩,
        ⟨some "x", some "c", some "p", false⟩])).1).finished = false ∧
    ((pop_answer true (some [⟨none, none, none, true⟩,
        ⟨some "x", some "c", some "p", false⟩])).1).text = some "x" ∧
    (pop_answer true (some [⟨none, none, none, true⟩,
        ⟨some "x", some "c", some "p", false⟩])).2 = some [] := by
  decide

/-- Claim C3 amended: when `pop_answer` pops a terminal fragment it
records `finished=true` for that iteration but keeps draining; the
returned `finished` flag is the flag of the last fragment popped, and
the returned text is the concatenation of the texts of all non-terminal
fragments drained, including any that follow a terminal fragment. -/
theorem c3_amended_drain (q : List Answer) :
    ((pop_answer true (some q)).1).finished =
      (q.getLast?.map Answer.finished).getD false ∧
    ((pop_answer true (some q)).1).text =
      some (texts_concat (q.filter (fun a => !a.finished))) := by
  rw [pop_answer_some_eq]
  exact ⟨rfl, rfl⟩

/-- Claim C4 as stated is false on the code: for a question id with no
buffer, `pop_answer` (line 139) returns `Answer(None, None, None,
False)`, whose `text` is absent (`None`), not the empty string `""`. -/
theorem c4_counterexample :
    (pop_answer true none).1.text = none ∧
    (pop_answer true none).1.text ≠ some "" := by
  decide

/-- Claim C4 amended: polling a question id that has no buffer in the
registry returns an answer with absent text (`None`, not `""`), absent
conversation and parent ids, and `finished=false`, and leaves the
registry entry absent. -/
theorem c4_no_buffer_shape :
    pop_answer true none = (⟨none, none, none, false⟩, none) := by
  decide

/-- Claim C5: once a poll has returned `finished=true` the registry
entry has been removed (line 161), and a subsequent `pop_answer` for the
same id takes the missing-buffer branch and returns
`Answer(None, None, None, False)`. -/
theorem c5_poll_idempotent_after_completion (q : List Answer)
    (h : ((pop_answer true (some q)).1).finished = true) :
    (pop_answer true (some q)).2 = none ∧
    (pop_answer true ((pop_answer true (some q)).2)).1 =
      ⟨none, none, none, false⟩ := by
  have hc : (q.getLast?.map Answer.finished).getD false = true := by
    rw [pop_answer_some_eq] at h
    exact h
  rw [pop_answer_some_eq]
  simp [hc, pop_answer]

theorem c5_witness :
    (pop_answer true (some [(⟨none, none, none, true⟩ : Answer)])).2 = none ∧
    (pop_answer true ((pop_answer true
        (some [(⟨none, none, none, true⟩ : Answer)])).2)).1 =
      ⟨none, none, none, false⟩ :=
  c5_poll_idempotent_after_completion [⟨none, none, none, true⟩] (by decide)

/-- Claim C6: when the adapter raises mid-stream the handler
(lines 114-117) publishes exactly one terminal fragment, with no text
and no ids, as the last fragment published; aggregating the published
fragments yields `finished=true` with no text beyond the already
streamed deltas, and a poll that drains just the terminal fragment
reports `finished=true`, empty text and absent ids. -/
theorem c6_failure_terminal (steps : List Step) :
    (start_answering steps true).filter (fun a => a.finished) =
      [⟨none, none, none, true⟩] ∧
    (start_answering steps true).getLast? = some ⟨none, none, none, true⟩ ∧
    ((pop_answer true (some (start_answering steps true))).1).finished = true ∧
    ((pop_answer true (some (start_answering steps true))).1).text =
      some (texts_concat (stream_deltas steps 0)) ∧
    (pop_answer true (some [(⟨none, none, none, true⟩ : Answer)])).1 =
      ⟨some "", none, none, true⟩ := by
  have hall := stream_deltas_all_nonterminal steps 0
  have hfilter1 : (stream_deltas steps 0).filter (fun a => a.finished) = [] :=
    List.filter_eq_nil_iff.mpr (fun a ha => by simp [hall a ha])
  have hfilter2 : (stream_deltas steps 0).filter (fun a => !a.finished) =
      stream_deltas steps 0 :=
    List.filter_eq_self.mpr (fun a ha => by simp [hall a ha])
  have hsa : start_answering steps true =
      stream_deltas steps 0 ++ [⟨none, none, none, true⟩] := by
    simp [start_answering]
  rw [hsa]
  refine ⟨?_, ?_, ?_, ?_, by decide⟩
  · rw [List.filter_append, hfilter1]
    simp
  · exact List.getLast?_concat _
  · rw [pop_answer_some_eq]
    simp [List.getLast?_concat]
  · rw [pop_answer_some_eq]
    simp only [List.filter_append, hfilter2]
    simp [texts_concat_append]

/-- Claim C7 describes the intended behaviour; the code has the bug the
spec itself flags: the results of the timed lock acquisitions at
lines 120 and 132 are discarded, so `queue_answer` and `pop_answer`
behave identically whether or not the lock was obtained, and on a failed
acquisition they still read and mutate the registry mapping instead of
failing the operation. -/
theorem c7_lock_result_ignored :
    (∀ (b : Bool) (buf : Option (List Answer)) (a : Answer),
      queue_answer b buf a = queue_answer true buf a) ∧
    (∀ (b : Bool) (buf : Option (List Answer)),
      pop_answer b buf = pop_answer true buf) ∧
    queue_answer false none ⟨some "x", none, none, false⟩ =
      some [⟨some "x", none, none, false⟩] ∧
    (pop_answer false (some [(⟨some "x", some "c", none, false⟩ : Answer)])).1 =
      ⟨some "x", some "c", none, false⟩ := by
  exact ⟨fun _ _ _ => rfl, fun _ _ => rfl, by decide, by decide⟩

/-- Claim C8: the buffer capacity is the fixed 64 of
`answer_queue_max_size`, and along every sequence of publish/poll events
on one question's buffer (with the blocking `put` modelled as the
publish event being enabled only below capacity) the number of
published-but-undrained fragments never exceeds 64. -/
theorem c8_capacity_bound (s : Option (List Answer))
    (h : Relation.ReflTransGen buffer_step none s) :
    answer_queue_max_size = 64 ∧ buf_len s ≤ answer_queue_max_size := by
  refine ⟨rfl, ?_⟩
  induction h with
  | refl => simp [buf_len]
  | @tail b c hrb hstep ih =>
    cases hstep with
    | publish a hlt =>
      cases b with
      | none => simp [queue_answer, buf_len, answer_queue_max_size]
      | some aq =>
        simp only [queue_answer, buf_len, List.length_append,
          List.length_singleton] at hlt ⊢
        omega
    | poll =>
      cases b with
      | none => simp [pop_answer, buf_len]
      | some aq =>
        rw [pop_answer_some_eq]
        by_cases hc : (aq.getLast?.map Answer.finished).getD false <;>
          simp [hc, buf_len]

theorem c8_witness :
    answer_queue_max_size = 64 ∧
    buf_len (none : Option (List Answer)) ≤ answer_queue_max_size :=
  c8_capacity_bound none Relation.ReflTransGen.refl

/-- Claim C9: `ask` builds a `Question` carrying the freshly generated
identifier, appends it (without blocking: the shared queue is unbounded)
to the question queue, and returns it immediately; the equations hold
for every `text`, in particular the empty string, so no validation of
the text is performed. -/
theorem c9_submit_enqueues (fresh_id : String) (question_queue : List Question)
    (text : String) (conversation_id parent_id : Option String) :
    (ask fresh_id question_queue text conversation_id parent_id).1 =
      ⟨text, conversation_id, parent_id, fresh_id⟩ ∧
    (ask fresh_id question_queue text conversation_id parent_id).2 =
      question_queue ++ [⟨text, conversation_id, parent_id, fresh_id⟩] ∧
    ((ask fresh_id question_queue text conversation_id parent_id).1).question_id =
      fresh_id :=
  ⟨rfl, rfl, rfl⟩

/-- Claim C10: a stream of zero steps that completes normally is routed
through the failure publish (the normal-completion code at lines 111-112
reads the unbound loop variable `data`, and the resulting error is
caught by the handler), so it publishes the same single terminal
fragment as a failed stream and the poller sees `finished=true`, empty
text and absent ids instead of a normal completion carrying ids. -/
theorem c10_empty_stream_failure_path :
    start_answering [] false = [⟨none, none, none, true⟩] ∧
    start_answering [] false = start_answering [] true ∧
    (pop_answer true (some (start_answering [] false))).1 =
      ⟨some "", none, none, true⟩ := by
  decide

theorem string_drop_zero (s : String) : s.drop 0 = s := by
  apply String.ext
  rw [String.data_drop]
  rfl

theorem stream_deltas_get?_zero (steps : List Step) (s0 : Step)
    (h : steps.get? 0 = some s0) :
    (stream_deltas steps 0).get? 0 =
      some ⟨some s0.message, s0.conversation_id, s0.parent_id, false⟩ := by
  cases steps with
  | nil => simp at h
  | cons a rest =>
    have ha : a = s0 := by simpa using h
    subst ha
    show some (⟨some (a.message.drop 0), a.conversation_id,
      a.parent_id, false⟩ : Answer) = _
    rw [string_drop_zero]

theorem stream_deltas_get?_adjacent :
    ∀ (steps : List Step) (pos i : Nat) (s s' : Step),
      steps.get? i = some s → steps.get? (i + 1) = some s' →
      (stream_deltas steps pos).get? (i + 1) =
        some ⟨some (s'.message.drop s.message.length), s'.conversation_id,
          s'.parent_id, false⟩
  | [], _, i, s, s', hs, _ => by simp at hs
  | s0 :: rest, pos, 0, s, s', hs, hs' => by
      cases rest with
      | nil => simp at hs'
      | cons s1 rest' =>
        have h0 : s0 = s := by simpa using hs
        have h1 : s1 = s' := by simpa using hs'
        subst h0
        subst h1
        rfl
  | s0 :: rest, pos, i + 1, s, s', hs, hs' => by
      show (stream_deltas rest s0.message.length).get? (i + 1) = _
      exact stream_deltas_get?_adjacent rest s0.message.length i s s' hs hs'

/-- Claim C2: for a cumulative adapter stream, each published fragment is
the newly-added suffix of the step's message relative to the previous
step's message (the first fragment is the whole first message), wrapped
as a non-terminal fragment with the step's ids; and on the spec's
concrete scenario the published fragments are the deltas "H", "e", "llo"
followed by the terminal fragment, whose one-shot aggregation is
text "Hello" with conversation id "c1", parent id "p1", finished. -/
theorem c2_delta_publication :
    (∀ (steps : List Step) (s0 : Step), steps.get? 0 = some s0 →
      (stream_deltas steps 0).get? 0 =
        some ⟨some s0.message, s0.conversation_id, s0.parent_id, false⟩) ∧
    (∀ (steps : List Step) (i : Nat) (s s' : Step),
      steps.get? i = some s → steps.get? (i + 1) = some s' →
      (∃ u, s'.message = s.message ++ u) →
      (stream_deltas steps 0).get? (i + 1) =
        some ⟨some (s'.message.drop s.message.length), s'.conversation_id,
          s'.parent_id, false⟩ ∧
      s.message ++ s'.message.drop s.message.length = s'.message) ∧
    start_answering scenario_steps false =
      [⟨some "H", some "c1", some "p1", false⟩,
       ⟨some "e", some "c1", some "p1", false⟩,
       ⟨some "llo", some "c1", some "p1", false⟩,
       ⟨none, some "c1", some "p1", true⟩] ∧
    (pop_answer true (some (start_answering scenario_steps false))).1 =
      ⟨some "Hello", some "c1", some "p1", true⟩ := by
  refine ⟨stream_deltas_get?_zero, ?_, by decide, by decide⟩
  intro steps i s s' hs hs' ht
  refine ⟨stream_deltas_get?_adjacent steps 0 i s s' hs hs', ?_⟩
  obtain ⟨u, hu⟩ := ht
  rw [hu, string_drop_append_length]

theorem c2_witness :
    (stream_deltas scenario_steps 0).get? 1 =
      some ⟨some ("He".drop "H".length), some "c1", some "p1", false⟩ ∧
    "H" ++ "He".drop "H".length = "He" :=
  c2_delta_publication.2.1 scenario_steps 0 ⟨"H", some "c1", some "p1"⟩
    ⟨"He", some "c1", some "p1"⟩ rfl rfl ⟨"e", by decide⟩

theorem publish_all_some (aq : List Answer) (l : List Answer) :
    publish_all (some aq) l = some (aq ++ l) := by
  induction l generalizing aq with
  | nil => simp [publish_all]
  | cons a rest ih =>
    show publish_all (some (aq ++ [a])) rest = some (aq ++ a :: rest)
    rw [ih]
    simp

theorem publish_all_none_cons (a : Answer) (l : List Answer) :
    publish_all none (a :: l) = some (a :: l) := by
  show publish_all (some [a]) l = some (a :: l)
  rw [publish_all_some]
  rfl

theorem getLast_finished_false (aq : List Answer)
    (h : ∀ a ∈ aq, a.finished = false) :
    (aq.getLast?.map Answer.finished).getD false = false := by
  cases haq : aq.getLast? with
  | none => rfl
  | some a => simp [h a (List.mem_of_mem_getLast? haq)]

theorem filter_nonterminal_eq_self (aq : List Answer)
    (h : ∀ a ∈ aq, a.finished = false) :
    aq.filter (fun a => !a.finished) = aq :=
  List.filter_eq_self.mpr (fun a ha => by simp [h a ha])

theorem poll_step_nonterminal (st : Option (List Answer)) (seg : List Answer)
    (hst : st = none ∨ st = some [])
    (hseg : ∀ a ∈ seg, a.finished = false) :
    ((pop_answer true (publish_all st seg)).1).finished = false ∧
    ((pop_answer true (publish_all st seg)).1).text.getD "" = texts_concat seg ∧
    ((pop_answer true (publish_all st seg)).2 = none ∨
      (pop_answer true (publish_all st seg)).2 = some []) := by
  cases seg with
  | nil =>
    rcases hst with h | h <;> subst h
    · exact ⟨rfl, rfl, Or.inl rfl⟩
    · exact ⟨rfl, rfl, Or.inr rfl⟩
  | cons a seg' =>
    have hpub : publish_all st (a :: seg') = some (a :: seg') := by
      rcases hst with h | h <;> subst h
      · exact publish_all_none_cons a seg'
      · rw [publish_all_some]
        rfl
    rw [hpub, pop_answer_some_eq]
    have hfin := getLast_finished_false (a :: seg') hseg
    have hfil := filter_nonterminal_eq_self (a :: seg') hseg
    simp [hfin, hfil]

theorem poll_step_terminal (st : Option (List Answer)) (rem : List Answer)
    (t : Answer) (hst : st = none ∨ st = some [])
    (hrem : ∀ a ∈ rem, a.finished = false) (ht : t.finished = true) :
    ((pop_answer true (publish_all st (rem ++ [t]))).1).finished = true ∧
    ((pop_answer true (publish_all st (rem ++ [t]))).1).text.getD "" =
      texts_concat rem := by
  have hpub : publish_all st (rem ++ [t]) = some (rem ++ [t]) := by
    rcases hst with h | h <;> subst h
    · cases rem with
      | nil => exact publish_all_none_cons t []
      | cons a rem' => exact publish_all_none_cons a (rem' ++ [t])
    · rw [publish_all_some]
      rfl
  rw [hpub, pop_answer_some_eq]
  have hlast : ((rem ++ [t]).getLast?.map Answer.finished).getD false = true := by
    rw [List.getLast?_concat]
    simp [ht]
  have hfil : (rem ++ [t]).filter (fun a => !a.finished) = rem := by
    rw [List.filter_append, filter_nonterminal_eq_self rem hrem]
    simp [ht]
  simp [hlast, hfil, ht]

theorem c1_aux (segs : List (List Answer)) :
    ∀ (init : List Answer) (t : Answer) (st : Option (List Answer)),
      (st = none ∨ st = some []) →
      (∀ a ∈ init, a.finished = false) → t.finished = true →
      segs.join = init ++ [t] →
      ∃ k r, (run_polls st segs).get? k = some r ∧ r.finished = true ∧
        (∀ r' ∈ (run_polls st segs).take k, r'.finished = false) ∧
        texts_concat ((run_polls st segs).take (k + 1)) = texts_concat init := by
  induction segs with
  | nil =>
    intro init t st _ _ _ hsegs
    exfalso
    have hlen := congrArg List.length hsegs
    simp at hlen
  | cons seg rest ih =>
    intro init t st hst hinit ht hsegs
    have hjoin : seg ++ rest.join = init ++ [t] := by
      simpa [List.join] using hsegs
    have hrun : run_polls st (seg :: rest) =
        (pop_answer true (publish_all st seg)).1 ::
          run_polls (pop_answer true (publish_all st seg)).2 rest := rfl
    have hcases : (∃ u, init = seg ++ u ∧ rest.join = u ++ [t]) ∨
        (seg = init ++ [t] ∧ rest.join = []) := by
      rcases List.append_eq_append_iff.mp hjoin with ⟨u, hu1, hu2⟩ | ⟨v, hv1, hv2⟩
      · exact Or.inl ⟨u, hu1, hu2⟩
      · cases v with
        | nil =>
          apply Or.inl
          refine ⟨[], ?_, ?_⟩
          · simp only [List.append_nil] at hv1
            simp [hv1]
          · simp only [List.nil_append] at hv2
            simp [hv2.symm]
        | cons v0 v' =>
          apply Or.inr
          simp only [List.cons_append] at hv2
          have h1 : t = v0 ∧ [] = v' ++ rest.join := by
            constructor
            · exact (List.cons.injEq t [] v0 (v' ++ rest.join) ▸ congrArg id hv2).1
            · exact (List.cons.injEq t [] v0 (v' ++ rest.join) ▸ congrArg id hv2).2
          obtain ⟨he1, he2⟩ := h1
          have h2 : v' = [] ∧ rest.join = [] := by
            have := he2.symm
            exact List.append_eq_nil.mp this
          subst he1
          obtain ⟨hv'nil, hrestnil⟩ := h2
          subst hv'nil
          exact ⟨hv1, hrestnil⟩
    rcases hcases with ⟨u, hu1, hu2⟩ | ⟨hseg_eq, hrest⟩
    · subst hu1
      have hseg : ∀ a ∈ seg, a.finished = false := fun a ha =>
        hinit a (List.mem_append_left u ha)
      have hu : ∀ a ∈ u, a.finished = false := fun a ha =>
        hinit a (List.mem_append_right seg ha)
      obtain ⟨hfin0, htext0, hst2⟩ := poll_step_nonterminal st seg hst hseg
      obtain ⟨k, r, hk, hrfin, hpre, htexts⟩ :=
        ih u t (pop_answer true (publish_all st seg)).2 hst2 hu ht hu2
      refine ⟨k + 1, r, ?_, hrfin, ?_, ?_⟩
      · rw [hrun]
        exact hk
      · rw [hrun, List.take_succ_cons]
        intro r' hr'
        rcases List.mem_cons.mp hr' with h | h
        · rw [h]
          exact hfin0
        · exact hpre r' h
      · rw [hrun, List.take_succ_cons, texts_concat_cons, htext0, htexts,
          texts_concat_append]
    · subst hseg_eq
      obtain ⟨hfin0, htext0⟩ := poll_step_terminal st init t hst hinit ht
      refine ⟨0, (pop_answer true (publish_all st (init ++ [t]))).1, ?_,
        hfin0, ?_, ?_⟩
      · rw [hrun]
        rfl
      · intro r' hr'
        simp at hr'
      · rw [hrun, List.take_succ_cons, texts_concat_cons, List.take_zero,
          texts_concat_nil, String.append_empty, htext0]

/-- Claim C1: for fragments F1..Fn published in order for one question
(F1..F(n-1) non-terminal, Fn terminal), and any interleaving of polls
with the publishes (each poll drains everything published so far and not
yet drained), repeatedly polling until a poll reports `finished=true`
yields exactly one finishing poll, all polls before it non-finished, and
total concatenated text equal to the concatenation of the non-terminal
fragments' texts in publish order, with no duplication and no loss. -/
theorem c1_no_duplication_no_loss (init : List Answer) (t : Answer)
    (segs : List (List Answer))
    (hinit : ∀ a ∈ init, a.finished = false) (ht : t.finished = true)
    (hsegs : segs.join = init ++ [t]) :
    ∃ k r, (run_polls none segs).get? k = some r ∧ r.finished = true ∧
      (∀ r' ∈ (run_polls none segs).take k, r'.finished = false) ∧
      texts_concat ((run_polls none segs).take (k + 1)) = texts_concat init :=
  c1_aux segs init t none (Or.inl rfl) hinit ht hsegs

theorem c1_witness :
    ∃ k r, (run_polls none [[⟨some "ab", some "c", some "p", false⟩],
        [⟨none, some "c", some "p", true⟩]]).get? k = some r ∧
      r.finished = true ∧
      (∀ r' ∈ (run_polls none [[⟨some "ab", some "c", some "p", false⟩],
        [⟨none, some "c", some "p", true⟩]]).take k, r'.finished = false) ∧
      texts_concat ((run_polls none [[⟨some "ab", some "c", some "p", false⟩],
        [⟨none, some "c", some "p", true⟩]]).take (k + 1)) =
        texts_concat [⟨some "ab", some "c", some "p", false⟩] :=
  c1_no_duplication_no_loss [⟨some "ab", some "c", some "p", false⟩]
    ⟨none, some "c", some "p", true⟩
    [[⟨some "ab", some "c", some "p", false⟩],
     [⟨none, some "c", some "p", true⟩]]
    (by decide) rfl (by decide)
